import Mathlib

set_option maxHeartbeats 1000000

/-!
Shallow embedding of the Reolink firmware checker
(`reolink_firmware_check.py`) and proofs about its version resolver,
version comparator and orchestration logic.

Python machine integers are arbitrary precision, so numeric fields are
modelled as `Nat`/`Int` directly.  Fallible operations (network calls,
JSON decoding) are modelled with `Except`/`Option`.  Strings are handled
at the `List Char` level where character-by-character behaviour matters.
-/

namespace Reolink

/-- Python's `max(xs, key=key)` as used by the source: a left fold that
keeps the earliest element whose key is maximal (a later element replaces
the current best only when its key is strictly greater). -/
def pyMax {α κ : Type} [LinearOrder κ] (key : α → κ) (x : α) (xs : List α) : α :=
  xs.foldl (fun b y => if key b < key y then y else b) x

/-! Release-tuple comparison.

`packaging.version`, on the dotted-numeric version identifiers this
program produces, compares the numeric release components left-to-right,
padding the shorter tuple with zeros (PEP 440 release-segment
comparison).  `cmpPadded` is that comparison; `padTo`/`<` below give the
independent "pad then compare lexicographically" formulation used to
state the spec's claims. -/
/-- Comparison of the empty (hence all-zero-padded) tuple against `b`:
`lt` as soon as `b` has a positive component, `eq` otherwise. -/
def cmpVsZeros : List Nat → Ordering
  | [] => Ordering.eq
  | b :: bs => if 0 < b then Ordering.lt else cmpVsZeros bs

/-- Comparison of `a` against the empty (all-zero-padded) tuple. -/
def cmpZerosVs : List Nat → Ordering
  | [] => Ordering.eq
  | a :: as => if 0 < a then Ordering.gt else cmpZerosVs as

/-- Left-to-right numeric comparison of release tuples, the shorter side
padded with zeros (models `packaging.version` ordering on dotted-numeric
versions). -/
def cmpPadded : List Nat → List Nat → Ordering
  | [], bs => cmpVsZeros bs
  | a :: as, [] => cmpZerosVs (a :: as)
  | a :: as, b :: bs =>
    if a < b then Ordering.lt
    else if b < a then Ordering.gt
    else cmpPadded as bs

/-- Pad a release tuple with zeros up to length `n`. -/
def padTo (n : Nat) (l : List Nat) : List Nat := l ++ List.replicate (n - l.length) 0

/-- `b` is a strictly newer release tuple than `a`: after zero-padding to
a common length, `a` is lexicographically smaller than `b`. -/
def releaseNewer (a b : List Nat) : Prop :=
  padTo (max a.length b.length) a < padTo (max a.length b.length) b

instance (a b : List Nat) : Decidable (releaseNewer a b) := by
  unfold releaseNewer
  infer_instance

/-! Version-string normalization and parsing (`parse_version_string`). -/
/-- Model of `version_str.lower().replace('v', '')` from
`parse_version_string`: lower-case every character, then delete every
occurrence of the (now lower-case) letter `v`.  Note that Python's
`replace` deletes every `v`, not only a leading one. -/
def cleanVersionChars (s : String) : List Char :=
  (s.data.map Char.toLower).filter (fun c => c != 'v')

/-- Model of Python `clean_version.split('_', 1)`: the characters before
the first underscore, paired with the characters after it. -/
def split_once_underscore : List Char → List Char × List Char
  | [] => ([], [])
  | c :: cs =>
    if c = '_' then ([], cs)
    else
      let p := split_once_underscore cs
      (c :: p.1, p.2)

/-- Decimal value of a digit string (the empty string counts as `0`,
which is also the default the grammar uses for absent tag numbers). -/
def digitsToNat (l : List Char) : Nat :=
  l.foldl (fun n c => n * 10 + (c.toNat - '0'.toNat)) 0

/-- The ASCII fragment of Python's `\s` character class
(`[ \t\n\r\f\v]`), as allowed around a version by
`packaging.version.parse`. -/
def isPySpace (c : Char) : Bool :=
  c == ' ' || c == '\t' || c == '\n' || c == '\r' || c == '\x0b' || c == '\x0c'

/-- Case-insensitive literal prefix match (the label is given in lower
case); returns the rest of the input on success. -/
def matchLabelPrefix : List Char → List Char → Option (List Char)
  | [], l => some l
  | _ :: _, [] => none
  | a :: as, c :: cs => if c.toLower = a then matchLabelPrefix as cs else none

/-- One segment of a PEP 440 local version: numeric segments compare as
integers and order above string segments. -/
inductive LocalPart : Type
  | num (n : Nat)
  | str (s : List Char)
deriving DecidableEq

/-- A parsed `packaging.version.Version`: epoch, numeric release tuple,
optional pre-release (normalized tag rank `0` = `a`, `1` = `b`,
`2` = `rc`, paired with its number), optional post-release and
dev-release numbers, and the optional local segment list. -/
structure PepVersion where
  epoch : Nat
  release : List Nat
  pre : Option (Nat × Nat)
  post : Option Nat
  dev : Option Nat
  localSegments : Option (List LocalPart)
deriving DecidableEq

/-- A purely dotted-numeric version: epoch `0` and no pre/post/dev/local
parts — the `Version`s produced by this program's well-formed firmware
version strings. -/
def releaseOnly (r : List Nat) : PepVersion := ⟨0, r, none, none, none, none⟩

/-- Three-way comparison of naturals. -/
def cmpNat (a b : Nat) : Ordering :=
  if a < b then Ordering.lt else if b < a then Ordering.gt else Ordering.eq

/-- The pre-release slot of packaging's comparison key: a version that
is only a dev release sorts below everything, a version without a
pre-release sorts above any pre-release tag. -/
inductive PreKey : Type
  | negInf
  | tag (rank : Nat) (n : Nat)
  | inf
deriving DecidableEq

def preKey (v : PepVersion) : PreKey :=
  match v.pre with
  | some p => PreKey.tag p.1 p.2
  | none => if v.post = none ∧ v.dev ≠ none then PreKey.negInf else PreKey.inf

def cmpPreKey : PreKey → PreKey → Ordering
  | PreKey.negInf, PreKey.negInf => Ordering.eq
  | PreKey.negInf, _ => Ordering.lt
  | _, PreKey.negInf => Ordering.gt
  | PreKey.inf, PreKey.inf => Ordering.eq
  | PreKey.inf, _ => Ordering.gt
  | _, PreKey.inf => Ordering.lt
  | PreKey.tag r1 n1, PreKey.tag r2 n2 => (cmpNat r1 r2).then (cmpNat n1 n2)

/-- Absent post-releases sort below any post-release number. -/
def cmpOptPost : Option Nat → Option Nat → Ordering
  | none, none => Ordering.eq
  | none, some _ => Ordering.lt
  | some _, none => Ordering.gt
  | some a, some b => cmpNat a b

/-- Absent dev-releases sort above any dev-release number. -/
def cmpOptDev : Option Nat → Option Nat → Ordering
  | none, none => Ordering.eq
  | none, some _ => Ordering.gt
  | some _, none => Ordering.lt
  | some a, some b => cmpNat a b

/-- Lexicographic character comparison by code point (Python string
ordering). -/
def cmpCharList : List Char → List Char → Ordering
  | [], [] => Ordering.eq
  | [], _ :: _ => Ordering.lt
  | _ :: _, [] => Ordering.gt
  | a :: as, b :: bs =>
    if a.toNat < b.toNat then Ordering.lt
    else if b.toNat < a.toNat then Ordering.gt
    else cmpCharList as bs

def cmpLocalPart : LocalPart → LocalPart → Ordering
  | LocalPart.num a, LocalPart.num b => cmpNat a b
  | LocalPart.num _, LocalPart.str _ => Ordering.gt
  | LocalPart.str _, LocalPart.num _ => Ordering.lt
  | LocalPart.str a, LocalPart.str b => cmpCharList a b

def cmpLocalList : List LocalPart → List LocalPart → Ordering
  | [], [] => Ordering.eq
  | [], _ :: _ => Ordering.lt
  | _ :: _, [] => Ordering.gt
  | a :: as, b :: bs => (cmpLocalPart a b).then (cmpLocalList as bs)

/-- Absent local versions sort below any local version. -/
def cmpOptLocal : Option (List LocalPart) → Option (List LocalPart) → Ordering
  | none, none => Ordering.eq
  | none, some _ => Ordering.lt
  | some _, none => Ordering.gt
  | some a, some b => cmpLocalList a b

/-- packaging's `Version` total order: lexicographic on the comparison
key (epoch; release with trailing zeros dropped, equivalently the
zero-padded comparison `cmpPadded`; then pre, post, dev and local
slots). -/
def cmpPep (x y : PepVersion) : Ordering :=
  (cmpNat x.epoch y.epoch).then
    ((cmpPadded x.release y.release).then
      ((cmpPreKey (preKey x) (preKey y)).then
        ((cmpOptPost x.post y.post).then
          ((cmpOptDev x.dev y.dev).then
            (cmpOptLocal x.localSegments y.localSegments)))))

/-- A single optional `[-_.]` separator, consumed greedily as in the
version grammar. -/
def dropSep (l : List Char) : List Char :=
  match l with
  | c :: cs => if c = '-' ∨ c = '_' ∨ c = '.' then cs else l
  | [] => []

/-- The longest tag of an alternation that prefixes the input
(case-insensitively), paired with its normalized value and the rest.
Longest-match reproduces the backtracking behaviour of the tag
alternations in packaging's version regex (a shorter tag of the
alternation always leaves an unparsable rest whenever a longer one
matches). -/
def longestTag (tags : List (List Char × Nat)) (l : List Char) :
    Option (Nat × List Char) :=
  tags.foldl
    (fun acc t =>
      match matchLabelPrefix t.1 l with
      | some rest =>
        match acc with
        | some pr => if rest.length < pr.2.length then some (t.2, rest) else acc
        | none => some (t.2, rest)
      | none => acc)
    none

/-- The pre-release tags with their normalized ranks
(`alpha`/`a` = 0, `beta`/`b` = 1, `c`/`pre`/`preview`/`rc` = 2). -/
def preTags : List (List Char × Nat) :=
  [("alpha".data, 0), ("a".data, 0), ("beta".data, 1), ("b".data, 1),
   ("c".data, 2), ("pre".data, 2), ("preview".data, 2), ("rc".data, 2)]

/-- The post-release tags, all normalized to `post`. -/
def postTags : List (List Char × Nat) :=
  [("post".data, 0), ("rev".data, 0), ("r".data, 0)]

/-- The dev-release tag. -/
def devTags : List (List Char × Nat) := [("dev".data, 0)]

/-- A `[-_.]? TAG [-_.]? [0-9]*` group of the version grammar: the
normalized tag value, the number (`0` when absent), and the rest of the
input; `none` when no tag matches (the group is then skipped without
consuming its optional separators). -/
def matchLetterGroup (tags : List (List Char × Nat)) (l : List Char) :
    Option (Nat × Nat × List Char) :=
  match longestTag tags (dropSep l) with
  | none => none
  | some tr =>
    some (tr.1, digitsToNat ((dropSep tr.2).takeWhile Char.isDigit),
      (dropSep tr.2).dropWhile Char.isDigit)

/-- The `(\.[0-9]+)*` tail of the release segment; `fuel`
(instantiated with the input length) makes the recursion structural. -/
def releaseMore : Nat → List Char → List Nat × List Char
  | 0, l => ([], l)
  | fuel + 1, l =>
    match l with
    | '.' :: rest =>
      if (rest.takeWhile Char.isDigit).isEmpty then ([], l)
      else
        (digitsToNat (rest.takeWhile Char.isDigit) ::
            (releaseMore fuel (rest.dropWhile Char.isDigit)).1,
          (releaseMore fuel (rest.dropWhile Char.isDigit)).2)
    | _ => ([], l)

/-- The alphanumeric characters of the local-version grammar
(`[a-z0-9]` under `re.IGNORECASE`). -/
def isLocalAlnum (c : Char) : Bool := c.isDigit || c.isAlpha

/-- One local-version segment: an integer when all digits, otherwise
the lower-cased string. -/
def localPartOf (p : List Char) : LocalPart :=
  if p.all Char.isDigit then LocalPart.num (digitsToNat p)
  else LocalPart.str (p.map Char.toLower)

/-- The `([-_.][a-z0-9]+)*` tail of a local version. -/
def localMore : Nat → List Char → List LocalPart × List Char
  | 0, l => ([], l)
  | fuel + 1, l =>
    match l with
    | c :: rest =>
      if (c = '-' ∨ c = '_' ∨ c = '.') ∧ (rest.takeWhile isLocalAlnum) ≠ [] then
        (localPartOf (rest.takeWhile isLocalAlnum) ::
            (localMore fuel (rest.dropWhile isLocalAlnum)).1,
          (localMore fuel (rest.dropWhile isLocalAlnum)).2)
      else ([], l)
    | [] => ([], l)

/-- The `[a-z0-9]+([-_.][a-z0-9]+)*` local version list after `+`. -/
def parseLocalParts (l : List Char) : Option (List LocalPart × List Char) :=
  if (l.takeWhile isLocalAlnum) = [] then none
  else
    some (localPartOf (l.takeWhile isLocalAlnum) ::
        (localMore l.length (l.dropWhile isLocalAlnum)).1,
      (localMore l.length (l.dropWhile isLocalAlnum)).2)

/-- Model of `packaging.version.parse` (the full PEP 440 grammar of
packaging's anchored version regex): optional surrounding whitespace,
an optional `v`, an optional numeric epoch followed by `!`, a
dotted-numeric release segment, optional pre-, post- and dev-release
letter groups, and an optional `+local` suffix; the whole input must be
consumed.  `none` models a raised `InvalidVersion`. -/
def parsePepVersion (input : List Char) : Option PepVersion :=
  let l1 := ((input.dropWhile isPySpace).reverse.dropWhile isPySpace).reverse
  let l2 :=
    match l1 with
    | c :: cs => if c = 'v' ∨ c = 'V' then cs else l1
    | [] => []
  let l3 :=
    match l2.dropWhile Char.isDigit with
    | '!' :: rest => if (l2.takeWhile Char.isDigit).isEmpty then l2 else rest
    | _ => l2
  let epoch : Nat :=
    match l2.dropWhile Char.isDigit with
    | '!' :: _ => digitsToNat (l2.takeWhile Char.isDigit)
    | _ => 0
  if (l3.takeWhile Char.isDigit) = [] then none
  else
    let release := digitsToNat (l3.takeWhile Char.isDigit) ::
      (releaseMore (l3.dropWhile Char.isDigit).length (l3.dropWhile Char.isDigit)).1
    let l4 := (releaseMore (l3.dropWhile Char.isDigit).length (l3.dropWhile Char.isDigit)).2
    let preRes := matchLetterGroup preTags l4
    let pre : Option (Nat × Nat) :=
      match preRes with
      | some t => some (t.1, t.2.1)
      | none => none
    let l5 :=
      match preRes with
      | some t => t.2.2
      | none => l4
    let postRes :=
      match l5 with
      | '-' :: rest =>
        if (rest.takeWhile Char.isDigit) = [] then matchLetterGroup postTags l5
        else some (0, digitsToNat (rest.takeWhile Char.isDigit),
          rest.dropWhile Char.isDigit)
      | _ => matchLetterGroup postTags l5
    let post : Option Nat :=
      match postRes with
      | some t => some t.2.1
      | none => none
    let l6 :=
      match postRes with
      | some t => t.2.2
      | none => l5
    let devRes := matchLetterGroup devTags l6
    let dev : Option Nat :=
      match devRes with
      | some t => some t.2.1
      | none => none
    let l7 :=
      match devRes with
      | some t => t.2.2
      | none => l6
    match l7 with
    | [] => some ⟨epoch, release, pre, post, dev, none⟩
    | '+' :: rest =>
      match parseLocalParts rest with
      | some pr =>
        if pr.2 = [] then some ⟨epoch, release, pre, post, dev, some pr.1⟩ else none
      | none => none
    | _ => none

/-- Normalized comparable version: either a structured parsed
`Version`, or (when parsing failed) the cleaned string itself, compared
as a raw string — the `ComparableVersion` of the data model. -/
inductive ComparableVersion : Type
  | structured (version : PepVersion)
  | raw (chars : List Char)
deriving DecidableEq

/-- `parse_version_string` from the source: clean the string, rewrite
`base_part '_' build_part` as `base_part '.' build_part` when an
underscore is present (Python `split('_', 1)` plus an f-string rejoin),
try `packaging.version.parse`, and fall back to the cleaned string. -/
def parse_version_string (version_str : String) : ComparableVersion :=
  match parsePepVersion
      (if (cleanVersionChars version_str).contains '_' then
        (split_once_underscore (cleanVersionChars version_str)).1 ++
          '.' :: (split_once_underscore (cleanVersionChars version_str)).2
      else cleanVersionChars version_str) with
  | some v => ComparableVersion.structured v
  | none => ComparableVersion.raw (cleanVersionChars version_str)

/-- `compare_versions(current_version, latest_version)` from the source.
A falsy (absent or empty) `latest_version` short-circuits; if either
side failed to parse, the result is raw string inequality of the two
original inputs; otherwise the structured tuples decide. -/
def compare_versions (current_version : String) (latest_version : Option String) :
    Bool × String :=
  match latest_version with
  | none => (false, "Could not determine latest version")
  | some lv =>
    if lv = "" then (false, "Could not determine latest version")
    else
      match parse_version_string current_version, parse_version_string lv with
      | ComparableVersion.structured a, ComparableVersion.structured b =>
        match cmpPep b a with
        | Ordering.gt =>
          (true, "🔔 New version available: " ++ lv ++ " (current: " ++ current_version ++ ")")
        | Ordering.eq => (false, "✅ You have the latest version: " ++ current_version)
        | Ordering.lt =>
          (false, "Your version " ++ current_version ++ " is newer than listed " ++ lv)
      | _, _ =>
        (current_version != lv, "Current: " ++ current_version ++ ", Latest: " ++ lv)

/-- Replacing the first underscore with a dot, in a single pass: the
spec's description of the `release.build` rewrite. -/
def firstUnderscoreToDot : List Char → List Char
  | [] => []
  | c :: cs => if c = '_' then '.' :: cs else c :: firstUnderscoreToDot cs

/-! The firmware-listing API response and its extraction step. -/
/-- One entry of the vendor's firmware list (`FirmwareRecord` of the
data model); `version` and `updated_at` (epoch milliseconds) are
optional JSON keys. -/
structure FirmwareRecord where
  version : Option String
  updated_at : Option Int
deriving DecidableEq

/-- One product object of the response's `data` array; the code reads
only its optional `firmwares` key. -/
structure ProductData where
  firmwares : Option (List FirmwareRecord)
deriving DecidableEq

/-- The JSON body `{ data: [ { firmwares: [...] } ] }` with its `data`
key optional.  A whole-body `none` stands for Python `None` (and,
through falsiness, for `{}`). -/
structure ApiResponse where
  data : Option (List ProductData)
deriving DecidableEq

/-- The sort key `lambda x: x.get('updated_at', 0)` of the extraction
step: a record without `updated_at` counts as timestamp `0`. -/
def fwKey (f : FirmwareRecord) : Int := f.updated_at.getD 0

/-- `extract_version_from_api_response` from the source: guard the shape
`{data: [{firmwares: [...]}]}` step by step, take
`max(firmwares, key=...)`, and return its `version` field when
present. -/
def extract_version_from_api_response (data : Option ApiResponse) : Option String :=
  match data with
  | none => none
  | some d =>
    match d.data with
    | none => none
    | some [] => none
    | some (product_data :: _) =>
      match product_data.firmwares with
      | none => none
      | some [] => none
      | some (f :: fs) =>
        let latest_firmware := pyMax fwKey f fs
        latest_firmware.version

/-! The network model and the three resolver strategies. -/
/-- An HTTP request as issued through `requests`: method, full URL, and
the `timeout=` keyword argument (`none` when the call site passes no
timeout). -/
structure HttpRequest where
  method : String
  url : String
  timeout : Option Nat
deriving DecidableEq

/-- An HTTP response: status code, body text, and the result of
`response.json()` (`Except.error` when JSON decoding raises). -/
structure HttpResponse where
  status : Int
  text : String
  jsonBody : Except String (Option ApiResponse)

/-- The network: what the outside world answers to each request;
`Except.error` models an exception raised inside `requests`. -/
def Net : Type := HttpRequest → Except String HttpResponse

def base_url : String := "https://reolink.com"

/-- Python truthiness filter on an optional string (`if version:`):
`None` and the empty string are falsy. -/
def truthyStr : Option String → Option String
  | none => none
  | some v => if v = "" then none else some v

/-! Regular-expression scanning used by the HTML fallback strategies.
The version patterns are simple enough that Python `re.findall`
semantics are reproduced exactly: scan left to right, attempt a match at
each position, emit the capture group and resume after the match. -/
/-- Matching `\d+ sep1 \d+ sep2 ... \d+` at the head of the input: each
`\d+` is a maximal digit run (the required literal separator after it
makes backtracking impossible).  Returns the consumed characters and the
rest of the input. -/
def matchDotted (seps : List Char) (l : List Char) : Option (List Char × List Char) :=
  let d := l.takeWhile Char.isDigit
  let rest := l.dropWhile Char.isDigit
  if d.isEmpty then none
  else
    match seps with
    | [] => some (d, rest)
    | s :: ss =>
      match rest with
      | c :: rest2 =>
        if c = s then
          match matchDotted ss rest2 with
          | some (g, r) => some (d ++ s :: g, r)
          | none => none
        else none
      | [] => none

/-- Matching `v?(\d+\.\d+\.\d+\.\d+_\d+)` (case-insensitive) at the head
of the input; the capture group excludes the optional `v`. -/
def matchPatA (l : List Char) : Option (List Char × List Char) :=
  match l with
  | [] => none
  | c :: rest =>
    if c = 'v' ∨ c = 'V' then matchDotted ['.', '.', '.', '_'] rest
    else matchDotted ['.', '.', '.', '_'] l

/-- The character class `[:\s]` of the labeled patterns (Python `\s` is
`[ \t\n\r\f\v]`). -/
def isColonSpace (c : Char) : Bool :=
  c == ':' || c == ' ' || c == '\t' || c == '\n' || c == '\r' || c == '\x0b' || c == '\x0c'

/-- Matching `LABEL[:\s]+v?(GROUP)` at the head of the input, where
GROUP is digit runs interleaved with `seps`; `includeV` tells whether
the capture group contains the optional `v` (true for the
`([v]?\d+\.\d+\.\d+)` patterns of `try_direct_download_page`, false for
the `v?(...)` patterns of `extract_version_from_html`). -/
def matchLabeled (label : List Char) (seps : List Char) (includeV : Bool)
    (l : List Char) : Option (List Char × List Char) :=
  match matchLabelPrefix label l with
  | none => none
  | some rest =>
    let sp := rest.takeWhile isColonSpace
    let rest1 := rest.dropWhile isColonSpace
    if sp.isEmpty then none
    else
      match rest1 with
      | c :: rest2 =>
        if c = 'v' ∨ c = 'V' then
          match matchDotted seps rest2 with
          | some (g, r) => some ((if includeV then c :: g else g), r)
          | none => none
        else matchDotted seps rest1
      | [] => none

/-- `re.findall` driver: scan left to right, at each position attempt
`matcher`; on success emit the capture group and resume after the match,
otherwise advance one character.  `fuel` (instantiated with the input
length, an upper bound on the number of steps) makes the recursion
structural. -/
def findallScan (matcher : List Char → Option (List Char × List Char)) :
    Nat → List Char → List (List Char)
  | 0, _ => []
  | _ + 1, [] => []
  | fuel + 1, c :: cs =>
    match matcher (c :: cs) with
    | some (g, rest) => g :: findallScan matcher fuel rest
    | none => findallScan matcher fuel cs

def findAll (matcher : List Char → Option (List Char × List Char))
    (l : List Char) : List (List Char) :=
  findallScan matcher l.length l

/-- Capture-group lists of the four patterns of
`extract_version_from_html`, in source order (all matched with
`re.IGNORECASE`). -/
def patternMatchesHtml (cs : List Char) : List (List (List Char)) :=
  [ findAll matchPatA cs
  , findAll (matchLabeled "version".data ['.', '.', '.'] false) cs
  , findAll (matchLabeled "firmware".data ['.', '.', '.'] false) cs
  , findAll (matchLabeled "download".data ['.', '.', '.'] false) cs ]

/-- The `len(m) > 5` filter of `extract_version_from_html`. -/
def filterLong (ms : List (List Char)) : List (List Char) :=
  ms.filter (fun m => decide (5 < m.length))

/-- The ranking key `x.replace('_', '').replace('.', '')` of
`extract_version_from_html`: the match with underscores and dots
removed, compared as a Python string (lexicographically by code
point). -/
def digitKey (m : List Char) : List Char :=
  m.filter (fun c => !(c == '_' || c == '.'))

/-- Per-pattern selection step of `extract_version_from_html`:
`if matches:` then filter by length, `if versions:` then
`max(versions, key=...)`. -/
def selectVersion (ms : List (List Char)) : Option String :=
  if ms.isEmpty then none
  else
    match filterLong ms with
    | [] => none
    | v :: vs => some (String.mk (pyMax digitKey v vs))

/-- The `for pattern in version_patterns` loop of
`extract_version_from_html`: the first pattern whose filtered match list
is non-empty wins. -/
def goPatterns : List (List (List Char)) → Option String
  | [] => none
  | ms :: rest =>
    match selectVersion ms with
    | some v => some v
    | none => goPatterns rest

/-- `extract_version_from_html` from the source. -/
def extract_version_from_html (html_content : String) : Option String :=
  goPatterns (patternMatchesHtml html_content.data)

/-- Capture-group lists of the three inline patterns of
`try_direct_download_page`, in source order; its labeled patterns are
three-component and capture the optional `v`. -/
def directPatterns (cs : List Char) : List (List (List Char)) :=
  [ findAll matchPatA cs
  , findAll (matchLabeled "version".data ['.', '.'] true) cs
  , findAll (matchLabeled "firmware".data ['.', '.'] true) cs ]

/-- The inline extraction of `try_direct_download_page`: the first match
(`matches[0]`) of the first pattern with any match at all. -/
def goFirstMatch : List (List (List Char)) → Option String
  | [] => none
  | ms :: rest =>
    match ms with
    | m :: _ => some (String.mk m)
    | [] => goFirstMatch rest

def directPageExtract (cs : List Char) : Option String :=
  goFirstMatch (directPatterns cs)

/-- The single request of the authoritative API strategy: a GET with the
product and hardware IDs as query parameters and `timeout=10`. -/
def apiRequest (product_id hardware_version_id : Int) : HttpRequest :=
  ⟨"GET",
    base_url ++ "/wp-json/reo-v2/download/firmware/?dlProductId=" ++
      toString product_id ++ "&hardwareVersion=" ++
      toString hardware_version_id ++ "&lang=en",
    some 10⟩

/-- `get_reolink_firmware_api` from the source, paired with the list of
issued requests: any exception or non-200 status yields no result. -/
def get_reolink_firmware_api (net : Net) (product_id hardware_version_id : Int) :
    Option String × List HttpRequest :=
  match net (apiRequest product_id hardware_version_id) with
  | Except.error _ => (none, [apiRequest product_id hardware_version_id])
  | Except.ok response =>
    if response.status = 200 then
      match response.jsonBody with
      | Except.error _ => (none, [apiRequest product_id hardware_version_id])
      | Except.ok d =>
        (extract_version_from_api_response d, [apiRequest product_id hardware_version_id])
    else (none, [apiRequest product_id hardware_version_id])

/-- The three guessed per-model URLs of `try_direct_download_page`. -/
def directUrls (model : String) : List String :=
  [ base_url ++ "/download-center/" ++ model.toLower ++ "/"
  , base_url ++ "/download/" ++ model.toLower ++ "/"
  , base_url ++ "/support/download/" ++ model.toLower ++ "/" ]

/-- The URL loop of `try_direct_download_page`: GET with `timeout=10`;
on a 200 body return the first pattern match if any; on an exception, a
non-200 status or no match, continue with the next URL. -/
def tryUrls (net : Net) : List String → Option String × List HttpRequest
  | [] => (none, [])
  | u :: us =>
    match net ⟨"GET", u, some 10⟩ with
    | Except.error _ =>
      ((tryUrls net us).1, (⟨"GET", u, some 10⟩ : HttpRequest) :: (tryUrls net us).2)
    | Except.ok response =>
      if response.status = 200 then
        match directPageExtract response.text.data with
        | some v => (some v, [(⟨"GET", u, some 10⟩ : HttpRequest)])
        | none =>
          ((tryUrls net us).1, (⟨"GET", u, some 10⟩ : HttpRequest) :: (tryUrls net us).2)
      else
        ((tryUrls net us).1, (⟨"GET", u, some 10⟩ : HttpRequest) :: (tryUrls net us).2)

/-- `try_direct_download_page` from the source. -/
def try_direct_download_page (net : Net) (model : String) :
    Option String × List HttpRequest :=
  tryUrls net (directUrls model)

/-- First request of `simulate_form_search`; the call site passes no
`timeout=` argument. -/
def formGetRequest : HttpRequest := ⟨"GET", base_url ++ "/download-center/", none⟩

/-- The best-effort POST of `simulate_form_search`; no `timeout=`. -/
def formPostRequest : HttpRequest := ⟨"POST", base_url ++ "/download-center/", none⟩

/-- The sitesearch GET of `simulate_form_search`; no `timeout=`. -/
def formSiteSearchRequest (model : String) : HttpRequest :=
  ⟨"GET", base_url ++ "/sitesearch/?q=" ++ model, none⟩

/-- The POST attempt of `simulate_form_search`, inside its own
swallow-all handler: on a 200 body the extracted version is passed
through Python truthiness, anything else yields no result. -/
def form_post_step (net : Net) : Option String :=
  match net formPostRequest with
  | Except.error _ => none
  | Except.ok r2 =>
    if r2.status = 200 then truthyStr (extract_version_from_html r2.text) else none

/-- The sitesearch attempt of `simulate_form_search`, inside its own
swallow-all handler. -/
def form_sitesearch_step (net : Net) (model : String) : Option String :=
  match net (formSiteSearchRequest model) with
  | Except.error _ => none
  | Except.ok r3 =>
    if r3.status = 200 then truthyStr (extract_version_from_html r3.text) else none

/-- `simulate_form_search` from the source: fetch the download-center
page (abandoning the strategy on exception or non-200), then try the
POST and the sitesearch GET in order, returning the first truthy
result.  (The page's form actions and search URLs are scanned by the
code but never used.) -/
def simulate_form_search (net : Net) (model hardware_version : String) :
    Option String × List HttpRequest :=
  match net formGetRequest with
  | Except.error _ => (none, [formGetRequest])
  | Except.ok r1 =>
    if r1.status ≠ 200 then (none, [formGetRequest])
    else
      match form_post_step net with
      | some v => (some v, [formGetRequest, formPostRequest])
      | none =>
        (form_sitesearch_step net model,
          [formGetRequest, formPostRequest, formSiteSearchRequest model])

/-- `get_product_and_hardware_ids`: the hardcoded model-mapping table
(only `RLN8-410` with hardware `N2MB02`, mapping to `(33, 231)`); the
pair is returned only when the hardware ID is truthy. -/
def get_product_and_hardware_ids (model hardware_version : String) :
    Option Int × Option Int :=
  if model = "RLN8-410" then
    let product_id : Int := 33
    let hardware_id : Option Int :=
      if hardware_version = "N2MB02" then some 231 else none
    match hardware_id with
    | some h => if h ≠ 0 then (some product_id, some h) else (none, none)
    | none => (none, none)
  else (none, none)

/-- The authoritative-API step of `search_firmware`: the API is called
only when the mapping lookup yields truthy product and hardware IDs
(`if product_id and hardware_id:`). -/
def api_step (net : Net) (model hardware_version : String) :
    Option String × List HttpRequest :=
  match get_product_and_hardware_ids model hardware_version with
  | (some p, some h) =>
    if p ≠ 0 ∧ h ≠ 0 then get_reolink_firmware_api net p h else (none, [])
  | _ => (none, [])

/-- `search_firmware` from the source: the authoritative API (when the
mapping yields truthy IDs), then form simulation, then the direct
download pages, each result passed through Python truthiness and the
first truthy one returned; the issued requests accumulate in order. -/
def search_firmware (net : Net) (model hardware_version : String) :
    Option String × List HttpRequest :=
  match truthyStr (api_step net model hardware_version).1 with
  | some v => (some v, (api_step net model hardware_version).2)
  | none =>
    match truthyStr (simulate_form_search net model hardware_version).1 with
    | some v =>
      (some v, (api_step net model hardware_version).2 ++
        (simulate_form_search net model hardware_version).2)
    | none =>
      (truthyStr (try_direct_download_page net model).1,
        (api_step net model hardware_version).2 ++
          (simulate_form_search net model hardware_version).2 ++
          (try_direct_download_page net model).2)

/-- `check_for_updates` from the source: search, compare when a truthy
latest version was found, and report `False` otherwise (including
"lookup failed"). -/
def check_for_updates (net : Net) (model hardware_version current_version : String) : Bool :=
  match truthyStr (search_firmware net model hardware_version).1 with
  | some latest_version => (compare_versions current_version (some latest_version)).1
  | none => false

/-- Exit status of `main()` when invoked with no CLI arguments: the
configuration completeness gate (`if not all([...]): sys.exit(1)`)
followed by the automatic check (exit `1` when an update was found,
exit `0` otherwise).  The three arguments are the `device` section's
optional entries; Python treats a missing key and an empty string alike
as falsy. -/
def main_no_args_exit (net : Net)
    (model hardware_version current_version : Option String) : Nat :=
  match model, hardware_version, current_version with
  | some m, some h, some c =>
    if m ≠ "" ∧ h ≠ "" ∧ c ≠ "" then
      if check_for_updates net m h c then 1 else 0
    else 1
  | _, _, _ => 1


theorem pyMax_cons {α κ : Type} [LinearOrder κ] (key : α → κ) (x y : α) (ys : List α) :
    pyMax key x (y :: ys) = pyMax key (if key x < key y then y else x) ys := rfl

/-- The element chosen by `pyMax` splits the list into a strict-smaller
prefix, the chosen element, and a suffix; the chosen element's key is the
maximum of all keys.  This is exactly "first maximal element wins". -/
theorem pyMax_spec {α κ : Type} [LinearOrder κ] (key : α → κ) (x : α) (xs : List α) :
    ∃ l1 l2, x :: xs = l1 ++ pyMax key x xs :: l2 ∧
      (∀ g ∈ x :: xs, key g ≤ key (pyMax key x xs)) ∧
      (∀ g ∈ l1, key g < key (pyMax key x xs)) := by
  induction xs generalizing x with
  | nil =>
    refine ⟨[], [], rfl, ?_, by simp⟩
    intro g hg
    simp only [List.mem_cons, List.not_mem_nil, or_false] at hg
    subst hg
    exact le_rfl
  | cons y ys ih =>
    rw [pyMax_cons]
    by_cases hxy : key x < key y
    · rw [if_pos hxy]
      obtain ⟨l1, l2, hdec, hmax, hbef⟩ := ih y
      have hym : key y ≤ key (pyMax key y ys) := hmax y (List.mem_cons_self y ys)
      refine ⟨x :: l1, l2, by rw [List.cons_append, ← hdec], ?_, ?_⟩
      · intro g hg
        rcases List.mem_cons.mp hg with h | h
        · subst h; exact (hxy.trans_le hym).le
        · exact hmax g h
      · intro g hg
        rcases List.mem_cons.mp hg with h | h
        · subst h; exact hxy.trans_le hym
        · exact hbef g h
    · rw [if_neg hxy]
      have hyx : key y ≤ key x := le_of_not_lt hxy
      obtain ⟨l1, l2, hdec, hmax, hbef⟩ := ih x
      have hxm : key x ≤ key (pyMax key x ys) := hmax x (List.mem_cons_self x ys)
      match l1, hdec with
      | [], hdec =>
        have hx : x = pyMax key x ys := (List.cons.inj hdec).1
        have hys : ys = l2 := (List.cons.inj hdec).2
        refine ⟨[], y :: ys, ?_, ?_, by simp⟩
        · simp only [List.nil_append]
          rw [← hx]
        · intro g hg
          rcases List.mem_cons.mp hg with h | h
          · subst h; exact hxm
          · rcases List.mem_cons.mp h with h' | h'
            · subst h'; exact hyx.trans hxm
            · exact hmax g (List.mem_cons_of_mem x h')
      | a :: l1', hdec =>
        have ha : a = x := ((List.cons.inj hdec).1).symm
        have hys : ys = l1' ++ pyMax key x ys :: l2 := (List.cons.inj hdec).2
        subst ha
        have hxlt : key a < key (pyMax key a ys) := hbef a (List.mem_cons_self a l1')
        refine ⟨a :: y :: l1', l2, ?_, ?_, ?_⟩
        · rw [List.cons_append, List.cons_append, ← hys]
        · intro g hg
          rcases List.mem_cons.mp hg with h | h
          · subst h; exact hxm
          · rcases List.mem_cons.mp h with h' | h'
            · subst h'; exact hyx.trans hxm
            · exact hmax g (List.mem_cons_of_mem a h')
        · intro g hg
          rcases List.mem_cons.mp hg with h | h
          · subst h; exact hxlt
          · rcases List.mem_cons.mp h with h' | h'
            · subst h'; exact (hyx.trans_lt hxlt)
            · exact hbef g (List.mem_cons_of_mem a h')

/-- Membership form of `pyMax_spec`. -/
theorem pyMax_mem {α κ : Type} [LinearOrder κ] (key : α → κ) (x : α) (xs : List α) :
    pyMax key x xs ∈ x :: xs := by
  obtain ⟨l1, l2, hdec, -, -⟩ := pyMax_spec key x xs
  rw [hdec]
  exact List.mem_append_right l1 (List.mem_cons_self _ _)

/-- Key-maximality form of `pyMax_spec`. -/
theorem pyMax_le {α κ : Type} [LinearOrder κ] (key : α → κ) (x : α) (xs : List α) :
    ∀ g ∈ x :: xs, key g ≤ key (pyMax key x xs) := by
  obtain ⟨-, -, -, hmax, -⟩ := pyMax_spec key x xs
  exact hmax

theorem padTo_self (l : List Nat) : padTo l.length l = l := by
  simp [padTo]

theorem padTo_succ_cons (n : Nat) (x : Nat) (l : List Nat) :
    padTo (n + 1) (x :: l) = x :: padTo n l := by
  simp [padTo, List.cons_append]

theorem padTo_nil (n : Nat) : padTo n [] = List.replicate n 0 := by
  simp [padTo]

theorem cmpZerosVs_swap (l : List Nat) : cmpZerosVs l = (cmpVsZeros l).swap := by
  induction l with
  | nil => rfl
  | cons x xs ih =>
    simp only [cmpZerosVs, cmpVsZeros]
    by_cases hx : 0 < x
    · rw [if_pos hx, if_pos hx]; rfl
    · rw [if_neg hx, if_neg hx]
      exact ih

theorem cmpVsZeros_swap (l : List Nat) : cmpVsZeros l = (cmpZerosVs l).swap := by
  induction l with
  | nil => rfl
  | cons x xs ih =>
    simp only [cmpZerosVs, cmpVsZeros]
    by_cases hx : 0 < x
    · rw [if_pos hx, if_pos hx]; rfl
    · rw [if_neg hx, if_neg hx]
      exact ih

theorem cmpPadded_swap (a b : List Nat) : cmpPadded b a = (cmpPadded a b).swap := by
  induction a generalizing b with
  | nil =>
    cases b with
    | nil => rfl
    | cons y bs => exact cmpZerosVs_swap (y :: bs)
  | cons x as iha =>
    cases b with
    | nil => exact cmpVsZeros_swap (x :: as)
    | cons y bs =>
      simp only [cmpPadded]
      rcases lt_trichotomy x y with h | h | h
      · rw [if_neg (lt_asymm h), if_pos h, if_pos h]; rfl
      · subst h
        simp only [if_neg (lt_irrefl x)]
        exact iha bs
      · rw [if_pos h, if_neg (lt_asymm h), if_pos h]; rfl

theorem cmpVsZeros_lt_iff (b : List Nat) :
    cmpVsZeros b = Ordering.lt ↔ List.replicate b.length 0 < b := by
  induction b with
  | nil =>
    simp only [cmpVsZeros, List.length_nil, List.replicate]
    constructor
    · intro h; exact absurd h (by decide)
    · intro h; cases h
  | cons y bs ih =>
    simp only [cmpVsZeros, List.length_cons, List.replicate]
    by_cases hy : 0 < y
    · rw [if_pos hy]
      constructor
      · intro _; exact List.Lex.rel hy
      · intro _; rfl
    · have hy0 : y = 0 := Nat.eq_zero_of_not_pos hy
      subst hy0
      rw [if_neg hy, ih]
      constructor
      · intro h; exact List.Lex.cons h
      · intro h
        cases h with
        | cons h => exact h
        | rel h => exact absurd h hy

theorem cmpZerosVs_ne_lt (a : List Nat) : cmpZerosVs a ≠ Ordering.lt := by
  induction a with
  | nil => simp [cmpZerosVs]
  | cons x as ih =>
    simp only [cmpZerosVs]
    by_cases hx : 0 < x
    · rw [if_pos hx]; exact by decide
    · rw [if_neg hx]; exact ih

theorem not_lt_replicate_zero (a : List Nat) : ¬ a < List.replicate a.length 0 := by
  induction a with
  | nil => intro h; cases h
  | cons x as ih =>
    intro h
    simp only [List.length_cons, List.replicate] at h
    cases h with
    | cons h => exact ih h
    | rel h => exact Nat.not_lt_zero x h

/-- `cmpPadded a b = lt` exactly when, after zero-padding, `a` is
lexicographically smaller than `b`. -/
theorem cmpPadded_lt_iff (a b : List Nat) :
    cmpPadded a b = Ordering.lt ↔ releaseNewer a b := by
  unfold releaseNewer
  induction a generalizing b with
  | nil =>
    rw [padTo_nil]
    simp only [List.length_nil, Nat.max_eq_right (Nat.zero_le _), Nat.zero_max]
    rw [padTo_self]
    exact cmpVsZeros_lt_iff b
  | cons x as iha =>
    cases b with
    | nil =>
      rw [padTo_nil]
      simp only [List.length_nil, Nat.max_eq_left (Nat.zero_le _), Nat.max_zero]
      rw [padTo_self]
      constructor
      · intro h; exact absurd h (cmpZerosVs_ne_lt (x :: as))
      · intro h; exact absurd h (not_lt_replicate_zero _)
    | cons y bs =>
      simp only [cmpPadded, List.length_cons, Nat.succ_max_succ, padTo_succ_cons]
      rcases lt_trichotomy x y with h | h | h
      · rw [if_pos h]
        constructor
        · intro _; exact List.Lex.rel h
        · intro _; rfl
      · subst h
        simp only [if_neg (lt_irrefl x)]
        rw [iha bs]
        constructor
        · intro h; exact List.Lex.cons h
        · intro h
          cases h with
          | cons h => exact h
          | rel h => exact absurd h (lt_irrefl x)
      · rw [if_neg (not_lt.mpr h.le), if_pos h]
        constructor
        · intro hc; exact absurd hc (by decide)
        · intro hc
          cases hc with
          | cons hc => exact absurd h (lt_irrefl x)
          | rel hc => exact absurd hc (not_lt.mpr h.le)

theorem cmpVsZeros_eq_iff (b : List Nat) :
    cmpVsZeros b = Ordering.eq ↔ List.replicate b.length 0 = b := by
  induction b with
  | nil => simp [cmpVsZeros]
  | cons y bs ih =>
    simp only [cmpVsZeros, List.length_cons, List.replicate]
    by_cases hy : 0 < y
    · rw [if_pos hy]
      constructor
      · intro h; exact absurd h (by decide)
      · intro h
        have h0 : (0 : Nat) = y := (List.cons.inj h).1
        omega
    · have hy0 : y = 0 := Nat.eq_zero_of_not_pos hy
      subst hy0
      rw [if_neg hy, ih]
      constructor
      · intro h; exact congrArg (List.cons 0) h
      · intro h; exact (List.cons.inj h).2

theorem cmpZerosVs_eq_iff (a : List Nat) :
    cmpZerosVs a = Ordering.eq ↔ a = List.replicate a.length 0 := by
  induction a with
  | nil => simp [cmpZerosVs]
  | cons x as ih =>
    simp only [cmpZerosVs, List.length_cons, List.replicate]
    by_cases hx : 0 < x
    · rw [if_pos hx]
      constructor
      · intro h; exact absurd h (by decide)
      · intro h
        have h0 : x = 0 := (List.cons.inj h).1
        omega
    · have hx0 : x = 0 := Nat.eq_zero_of_not_pos hx
      subst hx0
      rw [if_neg hx, ih]
      constructor
      · intro h; exact congrArg (List.cons 0) h
      · intro h; exact (List.cons.inj h).2

/-- `cmpPadded a b = eq` exactly when the zero-padded tuples coincide. -/
theorem cmpPadded_eq_iff (a b : List Nat) :
    cmpPadded a b = Ordering.eq ↔
      padTo (max a.length b.length) a = padTo (max a.length b.length) b := by
  induction a generalizing b with
  | nil =>
    rw [padTo_nil]
    simp only [List.length_nil, Nat.max_eq_right (Nat.zero_le _), Nat.zero_max]
    rw [padTo_self]
    exact cmpVsZeros_eq_iff b
  | cons x as iha =>
    cases b with
    | nil =>
      rw [padTo_nil]
      simp only [List.length_nil, Nat.max_eq_left (Nat.zero_le _), Nat.max_zero]
      rw [padTo_self]
      exact cmpZerosVs_eq_iff (x :: as)
    | cons y bs =>
      simp only [cmpPadded, List.length_cons, Nat.succ_max_succ, padTo_succ_cons]
      rcases lt_trichotomy x y with h | h | h
      · rw [if_pos h]
        constructor
        · intro hc; exact absurd hc (by decide)
        · intro hc
          have hxy : x = y := (List.cons.inj hc).1
          omega
      · subst h
        simp only [if_neg (lt_irrefl x)]
        rw [iha bs]
        constructor
        · intro h; rw [h]
        · intro h; rw [(List.cons.inj h).2]
      · rw [if_neg (not_lt.mpr h.le), if_pos h]
        constructor
        · intro hc; exact absurd hc (by decide)
        · intro hc
          have hxy : x = y := (List.cons.inj hc).1
          omega

/-- `cmpPadded a b = gt` exactly when `b` is, padded, lexicographically
smaller than `a`. -/
theorem cmpPadded_gt_iff (a b : List Nat) :
    cmpPadded a b = Ordering.gt ↔ releaseNewer b a := by
  rw [cmpPadded_swap]
  constructor
  · intro h
    have h' : cmpPadded b a = Ordering.lt := by
      cases hc : cmpPadded b a <;> rw [hc] at h <;> first | rfl | cases h
    exact (cmpPadded_lt_iff b a).mp h'
  · intro h
    rw [(cmpPadded_lt_iff b a).mpr h]
    rfl

theorem split_once_append_eq_firstDot (l : List Char) (h : l.contains '_' = true) :
    (split_once_underscore l).1 ++ '.' :: (split_once_underscore l).2 =
      firstUnderscoreToDot l := by
  induction l with
  | nil => simp at h
  | cons c cs ih =>
    by_cases hc : c = '_'
    · subst hc
      simp [split_once_underscore, firstUnderscoreToDot]
    · rw [List.contains_cons] at h
      have hcs : cs.contains '_' = true := by
        rcases Bool.or_eq_true_iff.mp h with h' | h'
        · exact absurd (beq_iff_eq.mp h').symm hc
        · exact h'
      simp only [split_once_underscore, if_neg hc, firstUnderscoreToDot]
      rw [List.cons_append, ih hcs]

theorem firstDot_of_not_contains (l : List Char) (h : l.contains '_' = false) :
    firstUnderscoreToDot l = l := by
  induction l with
  | nil => rfl
  | cons c cs ih =>
    rw [List.contains_cons] at h
    rcases Bool.or_eq_false_iff.mp h with ⟨h1, h2⟩
    have hc : c ≠ '_' := fun he => by simp [he] at h1
    simp only [firstUnderscoreToDot, if_neg hc]
    rw [ih h2]

/-! Helper lemmas about the strategies, their request traces, and the
pattern-selection loops. -/
theorem get_api_trace (net : Net) (p h : Int) :
    (get_reolink_firmware_api net p h).2 = [apiRequest p h] := by
  unfold get_reolink_firmware_api
  split
  · rfl
  · split
    · split <;> rfl
    · rfl

theorem tryUrls_trace (net : Net) :
    ∀ (us : List String) (r : HttpRequest), r ∈ (tryUrls net us).2 →
      ∃ u ∈ us, r = (⟨"GET", u, some 10⟩ : HttpRequest) := by
  intro us
  induction us with
  | nil => intro r hr; simp [tryUrls] at hr
  | cons u us ih =>
    intro r hr
    unfold tryUrls at hr
    split at hr
    · simp only [List.mem_cons] at hr
      rcases hr with hr | hr
      · exact ⟨u, List.mem_cons_self u us, hr⟩
      · obtain ⟨u', hu', hr'⟩ := ih r hr
        exact ⟨u', List.mem_cons_of_mem u hu', hr'⟩
    · split at hr
      · split at hr
        · simp only [List.mem_singleton] at hr
          exact ⟨u, List.mem_cons_self u us, hr⟩
        · simp only [List.mem_cons] at hr
          rcases hr with hr | hr
          · exact ⟨u, List.mem_cons_self u us, hr⟩
          · obtain ⟨u', hu', hr'⟩ := ih r hr
            exact ⟨u', List.mem_cons_of_mem u hu', hr'⟩
      · simp only [List.mem_cons] at hr
        rcases hr with hr | hr
        · exact ⟨u, List.mem_cons_self u us, hr⟩
        · obtain ⟨u', hu', hr'⟩ := ih r hr
          exact ⟨u', List.mem_cons_of_mem u hu', hr'⟩

theorem tryUrls_error_none (e : String) :
    ∀ us : List String, (tryUrls (fun _ => Except.error e) us).1 = none := by
  intro us
  induction us with
  | nil => rfl
  | cons u us ih =>
    unfold tryUrls
    exact ih

theorem simulate_form_search_requests (net : Net) (model hw : String) :
    ∀ r ∈ (simulate_form_search net model hw).2,
      r = formGetRequest ∨ r = formPostRequest ∨ r = formSiteSearchRequest model := by
  intro r hr
  unfold simulate_form_search at hr
  split at hr
  · simp only [List.mem_singleton] at hr
    exact Or.inl hr
  · split at hr
    · simp only [List.mem_singleton] at hr
      exact Or.inl hr
    · split at hr
      · simp only [List.mem_cons, List.not_mem_nil, or_false] at hr
        rcases hr with hr | hr
        · exact Or.inl hr
        · exact Or.inr (Or.inl hr)
      · simp only [List.mem_cons, List.not_mem_nil, or_false] at hr
        rcases hr with hr | hr | hr
        · exact Or.inl hr
        · exact Or.inr (Or.inl hr)
        · exact Or.inr (Or.inr hr)

theorem get_ids_unknown (model hw : String)
    (hne : ¬ (model = "RLN8-410" ∧ hw = "N2MB02")) :
    get_product_and_hardware_ids model hw = (none, none) := by
  unfold get_product_and_hardware_ids
  by_cases hm : model = "RLN8-410"
  · rw [if_pos hm]
    have hh : ¬ hw = "N2MB02" := fun h => hne ⟨hm, h⟩
    simp [hh]
  · rw [if_neg hm]

theorem get_ids_known (model hw : String) (p h : Int)
    (hids : get_product_and_hardware_ids model hw = (some p, some h)) :
    model = "RLN8-410" ∧ hw = "N2MB02" ∧ p = 33 ∧ h = 231 := by
  by_cases hm : model = "RLN8-410"
  · by_cases hh : hw = "N2MB02"
    · subst hm; subst hh
      rw [show get_product_and_hardware_ids "RLN8-410" "N2MB02" = (some 33, some 231)
        by decide] at hids
      rw [Prod.mk.injEq] at hids
      exact ⟨rfl, rfl, (Option.some.inj hids.1).symm, (Option.some.inj hids.2).symm⟩
    · rw [get_ids_unknown model hw (fun hc => hh hc.2), Prod.mk.injEq] at hids
      exact absurd hids.1 (by simp)
  · rw [get_ids_unknown model hw (fun hc => hm hc.1), Prod.mk.injEq] at hids
    exact absurd hids.1 (by simp)

theorem get_ids_cases (model hw : String) :
    get_product_and_hardware_ids model hw = (none, none) ∨
      get_product_and_hardware_ids model hw = (some 33, some 231) := by
  by_cases hm : model = "RLN8-410"
  · by_cases hh : hw = "N2MB02"
    · right
      unfold get_product_and_hardware_ids
      simp [hm, hh]
    · left; exact get_ids_unknown model hw (fun hc => hh hc.2)
  · left; exact get_ids_unknown model hw (fun hc => hm hc.1)

theorem data_get20_append (p : String) (rest : List Char) (c : Char)
    (hp : p.data.get? 20 = some c) : (p.data ++ rest).get? 20 = some c := by
  have hlen : 20 < p.data.length := by
    rcases lt_or_ge 20 p.data.length with h | h
    · exact h
    · rw [List.get?_eq_none.mpr h] at hp
      cases hp
  rw [List.get?_append hlen]
  exact hp

theorem string_ne_of_get20 (s t : String) (c d : Char)
    (hs : s.data.get? 20 = some c) (ht : t.data.get? 20 = some d)
    (hcd : c ≠ d) : s ≠ t := by
  intro he
  subst he
  rw [hs] at ht
  exact hcd (Option.some.inj ht)

theorem apiRequest_url_get20 (p h : Int) :
    (apiRequest p h).url.data.get? 20 = some 'w' := by
  show ((((base_url ++ "/wp-json/reo-v2/download/firmware/?dlProductId=") ++
      toString p) ++ "&hardwareVersion=") ++ toString h ++ "&lang=en").data.get? 20 = some 'w'
  have e : ((((base_url ++ "/wp-json/reo-v2/download/firmware/?dlProductId=") ++
      toString p) ++ "&hardwareVersion=") ++ toString h ++ "&lang=en").data =
      (base_url ++ "/wp-json/reo-v2/download/firmware/?dlProductId=").data ++
        ((toString p).data ++ ("&hardwareVersion=".data ++
          ((toString h).data ++ "&lang=en".data))) := by
    show (((((base_url ++ "/wp-json/reo-v2/download/firmware/?dlProductId=").data ++
      (toString p).data) ++ "&hardwareVersion=".data) ++ (toString h).data) ++
        "&lang=en".data) = _
    simp [List.append_assoc]
  rw [e]
  exact data_get20_append _ _ 'w' (by decide)

theorem directUrl_ne_api_url (m : String) (p h : Int) :
    ∀ u ∈ directUrls m, u ≠ (apiRequest p h).url := by
  intro u hu
  have hw := apiRequest_url_get20 p h
  simp only [directUrls, List.mem_cons, List.not_mem_nil, or_false] at hu
  rcases hu with rfl | rfl | rfl
  · refine string_ne_of_get20 _ _ 'd' 'w' ?_ hw (by decide)
    have e : ((base_url ++ "/download-center/") ++ m.toLower ++ "/").data =
        (base_url ++ "/download-center/").data ++ (m.toLower.data ++ "/".data) := by
      show (((base_url ++ "/download-center/").data ++ m.toLower.data) ++ "/".data) = _
      simp [List.append_assoc]
    rw [e]
    exact data_get20_append _ _ 'd' (by decide)
  · refine string_ne_of_get20 _ _ 'd' 'w' ?_ hw (by decide)
    have e : ((base_url ++ "/download/") ++ m.toLower ++ "/").data =
        (base_url ++ "/download/").data ++ (m.toLower.data ++ "/".data) := by
      show (((base_url ++ "/download/").data ++ m.toLower.data) ++ "/".data) = _
      simp [List.append_assoc]
    rw [e]
    exact data_get20_append _ _ 'd' (by decide)
  · refine string_ne_of_get20 _ _ 's' 'w' ?_ hw (by decide)
    have e : ((base_url ++ "/support/download/") ++ m.toLower ++ "/").data =
        (base_url ++ "/support/download/").data ++ (m.toLower.data ++ "/".data) := by
      show (((base_url ++ "/support/download/").data ++ m.toLower.data) ++ "/".data) = _
      simp [List.append_assoc]
    rw [e]
    exact data_get20_append _ _ 's' (by decide)

theorem form_request_ne_api (model : String) (q : HttpRequest)
    (hq : q = formGetRequest ∨ q = formPostRequest ∨ q = formSiteSearchRequest model) :
    ∀ p h : Int, q ≠ apiRequest p h := by
  intro p h he
  have ht : q.timeout = some 10 := by rw [he]; rfl
  rcases hq with rfl | rfl | rfl <;> cases ht

theorem direct_request_ne_api (net : Net) (model : String) (q : HttpRequest)
    (hq : q ∈ (try_direct_download_page net model).2) :
    ∀ p h : Int, q ≠ apiRequest p h := by
  intro p h he
  obtain ⟨u, hu, rfl⟩ := tryUrls_trace net (directUrls model) q hq
  have := directUrl_ne_api_url model p h u hu
  exact this (congrArg HttpRequest.url he)

theorem goPatterns_some (L : List (List (List Char))) (v : String)
    (h : goPatterns L = some v) : ∃ ms ∈ L, selectVersion ms = some v := by
  induction L with
  | nil => cases h
  | cons ms rest ih =>
    simp only [goPatterns] at h
    cases hsel : selectVersion ms with
    | some w =>
      rw [hsel] at h
      exact ⟨ms, List.mem_cons_self _ _, hsel.trans h⟩
    | none =>
      rw [hsel] at h
      obtain ⟨ms', hm', hs'⟩ := ih h
      exact ⟨ms', List.mem_cons_of_mem _ hm', hs'⟩

theorem selectVersion_some (ms : List (List Char)) (v : String)
    (h : selectVersion ms = some v) :
    v.data ∈ filterLong ms ∧ ∀ m ∈ filterLong ms, digitKey m ≤ digitKey v.data := by
  unfold selectVersion at h
  by_cases he : ms.isEmpty
  · rw [if_pos he] at h; cases h
  · rw [if_neg he] at h
    cases hf : filterLong ms with
    | nil => rw [hf] at h; cases h
    | cons v0 vs =>
      rw [hf] at h
      have hv : v = String.mk (pyMax digitKey v0 vs) := (Option.some.inj h).symm
      subst hv
      constructor
      · exact pyMax_mem digitKey v0 vs
      · intro m hm
        exact pyMax_le digitKey v0 vs m hm

theorem goFirstMatch_some (L : List (List (List Char))) (v : String)
    (h : goFirstMatch L = some v) : ∃ ms ∈ L, ms.head? = some v.data := by
  induction L with
  | nil => cases h
  | cons ms rest ih =>
    simp only [goFirstMatch] at h
    cases ms with
    | cons m ms' =>
      have hv : v = String.mk m := (Option.some.inj h).symm
      subst hv
      exact ⟨m :: ms', List.mem_cons_self _ _, rfl⟩
    | nil =>
      obtain ⟨ms', hm, hh⟩ := ih h
      exact ⟨ms', List.mem_cons_of_mem _ hm, hh⟩

theorem api_step_none_or_api (net : Net) (model hw : String) :
    api_step net model hw = (none, []) ∨
      api_step net model hw = get_reolink_firmware_api net 33 231 := by
  unfold api_step
  rcases get_ids_cases model hw with hid | hid <;> rw [hid]
  · left; rfl
  · right
    rfl

theorem search_firmware_none_of_all_fail (net : Net) (model hw : String)
    (h1 : truthyStr (get_reolink_firmware_api net 33 231).1 = none)
    (h2 : truthyStr (simulate_form_search net model hw).1 = none)
    (h3 : truthyStr (try_direct_download_page net model).1 = none) :
    (search_firmware net model hw).1 = none := by
  unfold search_firmware
  rcases api_step_none_or_api net model hw with hap | hap <;> rw [hap]
  · rw [show truthyStr (none, ([] : List HttpRequest)).1 = none from rfl, h2, h3]
  · rw [h1, h2, h3]

/-! The claims. -/
/-- **C1** (amended): for every API response whose `data[0].firmwares`
list is non-empty, `extract_version_from_api_response` returns the
`version` field of the firmware record with the maximum `updated_at`
timestamp; when several records share that maximum, the *first* such
record in list order is selected (Python's `max` keeps the earliest
maximal element): the list splits as `l1 ++ r :: l2` where the chosen
`r` attains the maximum key and everything before it is strictly
smaller. -/
theorem C1_extract_selects_first_max (rest : List ProductData) (f : FirmwareRecord)
    (fs : List FirmwareRecord) :
    ∃ l1 r l2, f :: fs = l1 ++ r :: l2 ∧
      extract_version_from_api_response
        (some ⟨some (⟨some (f :: fs)⟩ :: rest)⟩) = r.version ∧
      (∀ g ∈ f :: fs, fwKey g ≤ fwKey r) ∧
      (∀ g ∈ l1, fwKey g < fwKey r) := by
  obtain ⟨l1, l2, hdec, hmax, hbef⟩ := pyMax_spec fwKey f fs
  exact ⟨l1, pyMax fwKey f fs, l2, hdec, rfl, hmax, hbef⟩

/-- **C1** counterexample to the claim as stated: with two firmware
records sharing the maximum `updated_at`, the extraction returns the
*first* record's version, not the last one's as the claim says. -/
theorem C1_counterexample :
    extract_version_from_api_response
      (some ⟨some [⟨some [⟨some "vA", some 5⟩, ⟨some "vB", some 5⟩]⟩]⟩) = some "vA" ∧
    extract_version_from_api_response
      (some ⟨some [⟨some [⟨some "vA", some 5⟩, ⟨some "vB", some 5⟩]⟩]⟩) ≠ some "vB" := by
  decide

/-- On purely dotted-numeric versions the `Version` order reduces to
the zero-padded numeric release comparison. -/
theorem cmpPep_releaseOnly (x y : List Nat) :
    cmpPep (releaseOnly x) (releaseOnly y) = cmpPadded x y := by
  rw [show cmpPep (releaseOnly x) (releaseOnly y) =
    Ordering.then (cmpPadded x y) Ordering.eq from rfl]
  cases cmpPadded x y <;> rfl

/-- **C2**: for version strings that both normalize to structured
dotted-numeric values, `compare_versions` returns an update exactly by
the zero-padded, left-to-right numeric comparison of the tuples:
strictly greater `latest` gives `(true, new-version message)`, equal
padded tuples give `(false, already-latest message)`, strictly smaller
gives `(false, current-newer message)`. -/
theorem C2_compare_agrees_with_tuple_order (c l : String) (a b : List Nat)
    (hc : parse_version_string c = ComparableVersion.structured (releaseOnly a))
    (hl : parse_version_string l = ComparableVersion.structured (releaseOnly b)) :
    (releaseNewer a b → compare_versions c (some l) =
      (true, "🔔 New version available: " ++ l ++ " (current: " ++ c ++ ")")) ∧
    (padTo (max a.length b.length) a = padTo (max a.length b.length) b →
      compare_versions c (some l) =
        (false, "✅ You have the latest version: " ++ c)) ∧
    (releaseNewer b a → compare_versions c (some l) =
      (false, "Your version " ++ c ++ " is newer than listed " ++ l)) := by
  have hlne : ¬ (l = "") := by
    intro he
    subst he
    rw [show parse_version_string "" = ComparableVersion.raw [] from rfl] at hl
    exact ComparableVersion.noConfusion hl
  refine ⟨?_, ?_, ?_⟩
  · intro hnew
    have hcmp : cmpPep (releaseOnly b) (releaseOnly a) = Ordering.gt := by
      rw [cmpPep_releaseOnly]
      exact (cmpPadded_gt_iff b a).mpr hnew
    simp only [compare_versions, if_neg hlne, hc, hl, hcmp]
  · intro heq
    have hcmp : cmpPep (releaseOnly b) (releaseOnly a) = Ordering.eq := by
      rw [cmpPep_releaseOnly, cmpPadded_eq_iff]
      rw [Nat.max_comm b.length a.length]
      exact heq.symm
    simp only [compare_versions, if_neg hlne, hc, hl, hcmp]
  · intro hold
    have hcmp : cmpPep (releaseOnly b) (releaseOnly a) = Ordering.lt := by
      rw [cmpPep_releaseOnly]
      exact (cmpPadded_lt_iff b a).mpr hold
    simp only [compare_versions, if_neg hlne, hc, hl, hcmp]

/-- Witness for **C2** at the spec's own example pair: the larger build
number is reported as a new version. -/
theorem C2_witness :
    compare_versions "v3.5.1.368_25010324" (some "v3.5.1.368_25010326") =
      (true, "🔔 New version available: v3.5.1.368_25010326 (current: v3.5.1.368_25010324)") :=
  (C2_compare_agrees_with_tuple_order "v3.5.1.368_25010324" "v3.5.1.368_25010326"
    [3, 5, 1, 368, 25010324] [3, 5, 1, 368, 25010326] rfl rfl).1 (by decide)

/-- **C3** (amended): `parse_version_string` lower-cases and removes
*every* occurrence of `v` (not only a leading one); when the cleaned
string contains an underscore, its first underscore is replaced by a
dot (the `release.build` rewrite; later underscores survive into the
parse); full PEP 440 parsing (`packaging.version.parse`: epoch,
release, pre/post/dev letter groups, local suffix) is attempted on the
result, and on failure the cleaned string itself is returned as the
opaque comparable value. -/
theorem C3_parse_normalization (s : String) :
    parse_version_string s =
      match parsePepVersion (firstUnderscoreToDot (cleanVersionChars s)) with
      | some v => ComparableVersion.structured v
      | none => ComparableVersion.raw (cleanVersionChars s) := by
  unfold parse_version_string
  cases hct : (cleanVersionChars s).contains '_' with
  | true =>
    rw [if_pos rfl]
    rw [split_once_append_eq_firstDot (cleanVersionChars s) hct]
  | false =>
    rw [if_neg (by decide)]
    rw [firstDot_of_not_contains (cleanVersionChars s) hct]

/-- **C3** counterexample to the claim as stated: the claim's
normalization (strip only a *leading* `v`) would leave `"1.2v"`
unparsable and return it as an opaque string, but the code removes the
interior `v` as well and produces the structured value `(1, 2)`; and
the claim's dotted-numeric-only parsing would send `"1.2.3rc1"` to the
opaque fallback, but the code parses it to a structured pre-release
`Version`. -/
theorem C3_counterexample :
    parse_version_string "1.2v" = ComparableVersion.structured (releaseOnly [1, 2]) ∧
    parse_version_string "1.2v" ≠ ComparableVersion.raw ("1.2v".data) ∧
    parse_version_string "1.2.3rc1" =
      ComparableVersion.structured ⟨0, [1, 2, 3], some (2, 1), none, none, none⟩ ∧
    parse_version_string "1.2.3rc1" ≠ ComparableVersion.raw ("1.2.3rc1".data) := by
  decide

/-- **C4** (amended): in the form-simulation strategy
(`extract_version_from_html`), among the matches longer than five
characters of the first pattern yielding such matches, the one whose
digit string (dots and underscores removed) is largest *as a Python
string* (lexicographic by code point, first one on ties) is returned —
not the largest read as an integer; and in the direct-download-page
strategy the *first* match of the first matching pattern is returned,
with no ranking at all. -/
theorem C4_fallback_match_selection :
    (∀ (html_content v : String),
      extract_version_from_html html_content = some v →
      ∃ ms ∈ patternMatchesHtml html_content.data,
        v.data ∈ filterLong ms ∧
        ∀ m ∈ filterLong ms, digitKey m ≤ digitKey v.data) ∧
    (∀ (cs : List Char) (v : String),
      directPageExtract cs = some v →
      ∃ ms ∈ directPatterns cs, ms.head? = some v.data) := by
  constructor
  · intro html v h
    obtain ⟨ms, hms, hsel⟩ := goPatterns_some _ v h
    obtain ⟨hmem, hmax⟩ := selectVersion_some ms v hsel
    exact ⟨ms, hms, hmem, hmax⟩
  · intro cs v h
    exact goFirstMatch_some _ v h

/-- **C4** counterexample to the claim as stated: on a page containing
`1.1.1.1_2` and `9.9.9.9_8`, the direct-download-page strategy returns
the first match `1.1.1.1_2` even though the other match's digits read
as an integer (99998) are larger than the first's (11112). -/
theorem C4_counterexample :
    (try_direct_download_page
        (fun _ => Except.ok ⟨200, "ab 1.1.1.1_2 and 9.9.9.9_8", Except.error "not json"⟩)
        "RLN8-410").1 = some "1.1.1.1_2" ∧
    (findAll matchPatA ("ab 1.1.1.1_2 and 9.9.9.9_8" : String).data).map String.mk =
      ["1.1.1.1_2", "9.9.9.9_8"] ∧
    digitsToNat (digitKey ("1.1.1.1_2" : String).data) <
      digitsToNat (digitKey ("9.9.9.9_8" : String).data) := by
  decide

/-- Witness for **C4**: on a body with two long matches, the form-path
extraction returns the one with the lexicographically larger digit
string, which is maximal among the filtered matches. -/
theorem C4_witness :
    ∃ ms ∈ patternMatchesHtml ("x 1.2.3.4_67 1.2.3.9_99" : String).data,
      ("1.2.3.9_99" : String).data ∈ filterLong ms ∧
      ∀ m ∈ filterLong ms, digitKey m ≤ digitKey ("1.2.3.9_99" : String).data :=
  C4_fallback_match_selection.1 "x 1.2.3.4_67 1.2.3.9_99" "1.2.3.9_99" (by decide)

/-- **C5**: `search_firmware` tries the authoritative API first — when
the mapping lookup yields IDs and the API produces a truthy version,
that version is returned and the *only* request issued is the single
API request (the fallbacks are skipped); a pair absent from the mapping
table yields `(None, None)`; and with an unmapped pair the result is the
form-simulation fallback followed by the direct-download fallback, and
no request to the firmware API endpoint is ever issued. -/
theorem C5_strategy_order :
    (∀ (net : Net) (model hw : String) (p h : Int) (v : String),
      get_product_and_hardware_ids model hw = (some p, some h) →
      (get_reolink_firmware_api net p h).1 = some v → v ≠ "" →
      search_firmware net model hw = (some v, [apiRequest p h])) ∧
    (∀ model hw : String, ¬ (model = "RLN8-410" ∧ hw = "N2MB02") →
      get_product_and_hardware_ids model hw = (none, none)) ∧
    (∀ (net : Net) (model hw : String),
      get_product_and_hardware_ids model hw = (none, none) →
      ((search_firmware net model hw).1 =
        (match truthyStr (simulate_form_search net model hw).1 with
         | some v => some v
         | none => truthyStr (try_direct_download_page net model).1) ∧
       ∀ q ∈ (search_firmware net model hw).2, ∀ p h : Int, q ≠ apiRequest p h)) := by
  refine ⟨?_, ?_, ?_⟩
  · intro net model hw p h v hids hapi hv
    obtain ⟨hm, hh, hp, hhid⟩ := get_ids_known model hw p h hids
    subst hp
    subst hhid
    have hstep : api_step net model hw = get_reolink_firmware_api net 33 231 := by
      unfold api_step
      rw [hids]
      rfl
    unfold search_firmware
    rw [hstep, hapi]
    simp only [truthyStr, if_neg hv]
    rw [get_api_trace]
  · intro model hw hne
    exact get_ids_unknown model hw hne
  · intro net model hw hid
    have hstep : api_step net model hw = (none, []) := by
      unfold api_step
      rw [hid]
    constructor
    · unfold search_firmware
      rw [hstep]
      cases hform : truthyStr (simulate_form_search net model hw).1 with
      | some v => rfl
      | none => rfl
    · intro q hq p h
      simp only [search_firmware, hstep, truthyStr] at hq
      split at hq
      · simp only [List.nil_append] at hq
        exact form_request_ne_api model q (simulate_form_search_requests net model hw q hq) p h
      · simp only [List.nil_append] at hq
        rcases List.mem_append.mp hq with hq | hq
        · exact form_request_ne_api model q (simulate_form_search_requests net model hw q hq) p h
        · exact direct_request_ne_api net model q hq p h

/-- Witness for **C5**: with the known `(RLN8-410, N2MB02)` pair and an
API answering a firmware list, the resolver returns that version after
the single API request; an unknown pair maps to `(None, None)`. -/
theorem C5_witness :
    search_firmware
      (fun _ => Except.ok ⟨200, "",
        Except.ok (some ⟨some [⟨some [⟨some "v9", some 7⟩]⟩]⟩)⟩)
      "RLN8-410" "N2MB02" = (some "v9", [apiRequest 33 231]) ∧
    get_product_and_hardware_ids "UNKNOWN" "HW" = (none, none) := by
  constructor
  · exact C5_strategy_order.1
      (fun _ => Except.ok ⟨200, "",
        Except.ok (some ⟨some [⟨some [⟨some "v9", some 7⟩]⟩]⟩)⟩)
      "RLN8-410" "N2MB02" 33 231 "v9" (by decide) rfl (by decide)
  · exact C5_strategy_order.2.1 "UNKNOWN" "HW" (by decide)

/-- **C6**: the resolver converts failure to "no result" instead of
raising: every malformed API body named by the spec (`None`, a body
without `data`, `data: []`, a product without `firmwares`, an empty
`firmwares` list) makes the extraction step return `none`; a network
exception inside any of the three strategies yields `none` for that
strategy; a resolver run whose every request raises returns `none`; and
whenever all three strategies produce falsy results the resolver
returns `none`. -/
theorem C6_failures_yield_no_result :
    extract_version_from_api_response none = none ∧
    extract_version_from_api_response (some ⟨none⟩) = none ∧
    extract_version_from_api_response (some ⟨some []⟩) = none ∧
    (∀ rest : List ProductData,
      extract_version_from_api_response (some ⟨some (⟨none⟩ :: rest)⟩) = none) ∧
    (∀ rest : List ProductData,
      extract_version_from_api_response (some ⟨some (⟨some []⟩ :: rest)⟩) = none) ∧
    (∀ (e : String) (p h : Int),
      (get_reolink_firmware_api (fun _ => Except.error e) p h).1 = none) ∧
    (∀ e model hw : String,
      (simulate_form_search (fun _ => Except.error e) model hw).1 = none) ∧
    (∀ e model : String,
      (try_direct_download_page (fun _ => Except.error e) model).1 = none) ∧
    (∀ e model hw : String,
      (search_firmware (fun _ => Except.error e) model hw).1 = none) ∧
    (∀ (net : Net) (model hw : String),
      truthyStr (get_reolink_firmware_api net 33 231).1 = none →
      truthyStr (simulate_form_search net model hw).1 = none →
      truthyStr (try_direct_download_page net model).1 = none →
      (search_firmware net model hw).1 = none) := by
  refine ⟨rfl, rfl, rfl, fun rest => rfl, fun rest => rfl, fun e p h => rfl,
    fun e model hw => rfl, ?_, ?_, ?_⟩
  · intro e model
    exact tryUrls_error_none e (directUrls model)
  · intro e model hw
    refine search_firmware_none_of_all_fail _ model hw rfl rfl ?_
    rw [show (try_direct_download_page (fun _ => Except.error e) model).1 = none from
      tryUrls_error_none e (directUrls model)]
    rfl
  · intro net model hw h1 h2 h3
    exact search_firmware_none_of_all_fail net model hw h1 h2 h3

/-- Witness for **C6**: a resolver run in which every request raises
returns no result through the all-strategies-fail clause. -/
theorem C6_witness :
    (search_firmware (fun _ => Except.error "boom") "RLN8-410" "N2MB02").1 = none := by
  have h := C6_failures_yield_no_result
  exact h.2.2.2.2.2.2.2.2.2 (fun _ => Except.error "boom") "RLN8-410" "N2MB02" rfl rfl rfl

/-- **C7** (amended): given a complete configuration (model, hardware
version and current version all present and non-empty), the automatic
check exits `1` exactly when an update was found and `0` otherwise, in
particular `0` when the resolver fails to determine a latest version;
with an incomplete configuration the process exits `1` before checking
(the behaviour the original claim missed). -/
theorem C7_exit_codes (net : Net) (m h c : String)
    (hm : m ≠ "") (hh : h ≠ "") (hc : c ≠ "") :
    (main_no_args_exit net (some m) (some h) (some c) = 1 ↔
      check_for_updates net m h c = true) ∧
    (main_no_args_exit net (some m) (some h) (some c) = 0 ↔
      check_for_updates net m h c = false) ∧
    (truthyStr (search_firmware net m h).1 = none →
      main_no_args_exit net (some m) (some h) (some c) = 0) := by
  simp only [main_no_args_exit, if_pos (And.intro hm (And.intro hh hc))]
  refine ⟨?_, ?_, ?_⟩
  · by_cases hcu : check_for_updates net m h c <;> simp [hcu]
  · by_cases hcu : check_for_updates net m h c <;> simp [hcu]
  · intro hs
    have hfalse : check_for_updates net m h c = false := by
      unfold check_for_updates
      rw [hs]
    simp [hfalse]

/-- **C7** counterexample to the claim as stated: invoked with no
arguments and an incomplete configuration, the program exits `1`
although no update was found (the resolver never even runs). -/
theorem C7_counterexample :
    main_no_args_exit (fun _ => Except.error "network down") none none none = 1 := rfl

/-- Witness for **C7**: with a complete configuration and a network
where every request raises (lookup failure), the automatic check exits
`0`. -/
theorem C7_witness :
    main_no_args_exit (fun _ => Except.error "down")
      (some "RLN8-410") (some "N2MB02") (some "v1") = 0 := by
  refine (C7_exit_codes (fun _ => Except.error "down") "RLN8-410" "N2MB02" "v1"
    (by decide) (by decide) (by decide)).2.2 ?_
  rfl

/-- **C8** (amended): for every pair of version strings with the latest
side non-empty (a falsy latest short-circuits to the
could-not-determine result before parsing) where normalization fails to
produce a structured value for at least one side, `compare_versions`
returns raw string inequality of the two original inputs, with a
message reporting both raw strings. -/
theorem C8_raw_comparison (c l : String) (hne : l ≠ "")
    (h : (∃ x, parse_version_string c = ComparableVersion.raw x) ∨
         (∃ x, parse_version_string l = ComparableVersion.raw x)) :
    compare_versions c (some l) =
      (c != l, "Current: " ++ c ++ ", Latest: " ++ l) := by
  simp only [compare_versions, if_neg hne]
  cases hpc : parse_version_string c with
  | structured a =>
    cases hpl : parse_version_string l with
    | structured b =>
      exfalso
      rcases h with ⟨x, hx⟩ | ⟨x, hx⟩
      · rw [hpc] at hx
        exact ComparableVersion.noConfusion hx
      · rw [hpl] at hx
        exact ComparableVersion.noConfusion hx
    | raw x => rfl
  | raw x =>
    cases hpl : parse_version_string l <;> rfl

/-- **C8** counterexample to the claim as stated: with the empty string
as `latest`, parsing fails for that side, yet `compare_versions` does
not return raw inequality (which would be `true` here) — the falsy
check fires first and reports "could not determine". -/
theorem C8_counterexample :
    compare_versions "x" (some "") = (false, "Could not determine latest version") ∧
    ("x" != "") = true ∧
    parse_version_string "" = ComparableVersion.raw [] := by decide

/-- Witness for **C8**: two unparsable version strings compare by raw
string inequality. -/
theorem C8_witness :
    compare_versions "banana" (some "apple") = (true, "Current: banana, Latest: apple") := by
  have h := C8_raw_comparison "banana" "apple" (by decide)
    (Or.inl ⟨cleanVersionChars "banana", rfl⟩)
  rw [h]
  decide

/-- **C9** (amended): the API strategy's request and every request of
the direct-download-page strategy carry a 10-second timeout, but the
form-simulation strategy's requests are issued with *no* timeout at
all — the claim's "every request is timeout-bounded at 10 seconds" is
false for that strategy. -/
theorem C9_request_timeouts (net : Net) (p h : Int) (model hw : String) :
    (∀ r ∈ (get_reolink_firmware_api net p h).2, r.timeout = some 10) ∧
    (∀ r ∈ (try_direct_download_page net model).2, r.timeout = some 10) ∧
    (∀ r ∈ (simulate_form_search net model hw).2, r.timeout = none) := by
  refine ⟨?_, ?_, ?_⟩
  · intro r hr
    rw [get_api_trace] at hr
    simp only [List.mem_singleton] at hr
    subst hr
    rfl
  · intro r hr
    obtain ⟨u, hu, rfl⟩ := tryUrls_trace net (directUrls model) r hr
    rfl
  · intro r hr
    rcases simulate_form_search_requests net model hw r hr with h1 | h1 | h1 <;>
      subst h1 <;> rfl

/-- **C9** counterexample to the claim as stated: a full run of the
form-simulation strategy issues its three requests all without any
timeout argument. -/
theorem C9_counterexample :
    ((simulate_form_search (fun _ => Except.ok ⟨200, "", Except.error "not json"⟩)
        "RLN8-410" "N2MB02").2).map (fun r => r.timeout) = [none, none, none] ∧
    (none : Option Nat) ≠ some 10 := by decide

/-- Witness for **C9**: the API request carries the 10-second timeout
and the download-center form request carries none. -/
theorem C9_witness :
    (apiRequest 1 2).timeout = some 10 ∧ formGetRequest.timeout = none := by
  constructor
  · exact (C9_request_timeouts (fun _ => Except.error "e") 1 2 "m" "h").1
      (apiRequest 1 2) (by decide)
  · exact (C9_request_timeouts (fun _ => Except.error "e") 1 2 "m" "h").2.2
      formGetRequest (by decide)

/-- **C10**: the extraction step treats a record without `updated_at`
as having timestamp `0`, so whenever some record carries a positive
timestamp, the record selected by the max scan cannot be one missing
the field. -/
theorem C10_missing_timestamp_never_selected (rest : List ProductData)
    (f : FirmwareRecord) (fs : List FirmwareRecord) (g : FirmwareRecord) (t : Int)
    (hg : g ∈ f :: fs) (ht : g.updated_at = some t) (hpos : 0 < t) :
    (∀ v : Option String, fwKey ⟨v, none⟩ = 0) ∧
    extract_version_from_api_response
      (some ⟨some (⟨some (f :: fs)⟩ :: rest)⟩) = (pyMax fwKey f fs).version ∧
    (pyMax fwKey f fs).updated_at ≠ none := by
  refine ⟨fun v => rfl, rfl, ?_⟩
  intro hnone
  have hle := pyMax_le fwKey f fs g hg
  have hkg : fwKey g = t := by simp [fwKey, ht]
  have hk0 : fwKey (pyMax fwKey f fs) = 0 := by simp [fwKey, hnone]
  rw [hkg, hk0] at hle
  omega

/-- Witness for **C10**: with a record missing `updated_at` listed
first and a record with timestamp `5` after it, the selected record is
the timestamped one. -/
theorem C10_witness :
    (∀ v : Option String, fwKey ⟨v, none⟩ = 0) ∧
    extract_version_from_api_response
      (some ⟨some [⟨some [⟨some "a", none⟩, ⟨some "b", some 5⟩]⟩]⟩) =
      (pyMax fwKey ⟨some "a", none⟩ [⟨some "b", some 5⟩]).version ∧
    (pyMax fwKey ⟨some "a", none⟩ [⟨some "b", some 5⟩]).updated_at ≠ none :=
  C10_missing_timestamp_never_selected [] ⟨some "a", none⟩ [⟨some "b", some 5⟩]
    ⟨some "b", some 5⟩ 5 (by decide) rfl (by decide)

end Reolink
